import Mathlib

/-!
Verification of the daily-selection and clue-generation core of the
brighton-player-daily web game (src/app.py).

The Python functions are shallowly embedded as executable Lean functions:

* `split_name`, `extract_era`, `build_clues` and its helpers mirror the
  string-processing and clue-assembly code in app.py line by line;
* `get_daily_player` mirrors the daily selection procedure; the seeded
  pseudo-random generator `random.Random(seed).choice`/`shuffle` is embedded
  as an explicit function argument (`choice`, respectively the tier
  permutations), since the seed is a pure function of the date and the
  relevant claims hold for every value that generator can draw;
* the selection history (a JSON file mapping ISO dates to indices) is
  embedded as an association list from day numbers (as `Int`) to indices,
  together with a file-content model for the load path;
* `check_guess` and `get_challenge` mirror the corresponding endpoints.

Python exceptions are embedded as `Except` errors.  Python `str.lower` is
modelled on the ASCII range (the repository data is ASCII apart from the
curly quotes, which `lower` leaves unchanged).
-/

namespace BrightonDaily

/-- Strip a class of characters from both ends of a character list, as the
Python `str.strip` family does. -/
def stripBoth (bad : Char → Bool) (l : List Char) : List Char :=
  ((l.dropWhile bad).reverse.dropWhile bad).reverse

/-- Python `str.strip()`: remove leading and trailing whitespace. -/
def pyStrip (s : String) : String :=
  ⟨stripBoth Char.isWhitespace s.data⟩

/-- Python `str.strip('"')`: remove leading and trailing double quotes. -/
def pyStripQuotes (s : String) : String :=
  ⟨stripBoth (fun c => c == '"') s.data⟩

/-- Embeds `split_name` from app.py: clean the name with
`str(name).strip().strip('"')`, then split at the first space; a name
without a space yields an empty last name.  (The `pd.isna` branch is
unreachable after the load-time `fillna`, where every name is a string.) -/
def split_name (name : String) : String × String :=
  let cs := (pyStripQuotes (pyStrip name)).data
  if cs.contains ' ' then
    (⟨cs.takeWhile (fun c => c != ' ')⟩, ⟨(cs.dropWhile (fun c => c != ' ')).drop 1⟩)
  else
    (⟨cs⟩, "")

/-- Numeric value of a digit character. -/
def digitVal (c : Char) : Nat := c.toNat - 48

/-- Embeds the regex scan `re.findall(r'(\d{4})', s)` from `_extract_era`:
leftmost, non-overlapping runs of exactly four digits. -/
def findYears : List Char → List Nat
  | c1 :: c2 :: c3 :: c4 :: rest =>
    if c1.isDigit && c2.isDigit && c3.isDigit && c4.isDigit then
      (digitVal c1 * 1000 + digitVal c2 * 100 + digitVal c3 * 10 + digitVal c4) ::
        findYears rest
    else
      findYears (c2 :: c3 :: c4 :: rest)
  | _ => []
  termination_by l => l.length
  decreasing_by all_goals simp_arith

/-- Insert a number into a sorted list (helper for `sortNat`). -/
def insertSorted (x : Nat) : List Nat → List Nat
  | [] => [x]
  | y :: rest => if x ≤ y then x :: y :: rest else y :: insertSorted x rest

/-- Insertion sort on naturals, embedding the Python `sorted`. -/
def sortNat : List Nat → List Nat
  | [] => []
  | x :: rest => insertSorted x (sortNat rest)

/-- Embeds `_extract_era` from app.py: pull all four-digit years out of the
seasons text, map them to decades, and render "the {d}s" or
"the {d1}s and {d2}s". -/
def extract_era (seasons_str : String) : String :=
  if seasons_str = "" then ""
  else
    let years := findYears seasons_str.data
    if years = [] then ""
    else
      let decades := sortNat ((years.map (fun y => y / 10 * 10)).dedup)
      if decades.length = 1 then
        "the " ++ toString (decades.headD 0) ++ "s"
      else
        "the " ++ toString (decades.headD 0) ++ "s and " ++
          toString (decades.getLastD 0) ++ "s"

/-- Symbolic fact identifiers tagging each clue, exactly the string labels
used in `build_clues`. -/
inductive FactTag
  | era
  | birth
  | spells
  | seasons
  | seasons2
  | appearances
  | goals
  | joined_from
  | left_for
  | position
deriving DecidableEq, Repr

/-- A player record, with one field per CSV column consumed by the clue and
guess logic (after the load-time cleaning in app.py, every text column is a
string and the numeric columns are non-negative integers). -/
structure Player where
  name : String
  date_of_birth : String
  place_of_birth : String
  country_of_birth : String
  position : String
  league_appearances : Nat
  league_goals : Nat
  spells : Nat
  seasons : String
  seasons2 : String
  joined_from : String
  left_for : String
deriving DecidableEq, Repr

/-- A clue candidate: its text together with the set of fact tags it uses. -/
abbrev Clue : Type := String × List FactTag

/-- Embeds the `left_for` special case of `build_clues`: no clue when the
text contains "Retired", a fixed sentence when the stripped text is exactly
"Still at club", otherwise the "left Brighton to join" phrasing.  (The
non-string branch is unreachable after `fillna`.) -/
def left_for_clue (p : Player) : String :=
  if "Retired".data <:+: p.left_for.data then ""
  else if pyStrip p.left_for = "Still at club" then
    "This player is still at the club."
  else
    "This player left Brighton to join " ++ p.left_for

/-- Embeds the era clue text of `build_clues`. -/
def era_clue (p : Player) : String :=
  let era := extract_era p.seasons
  if era = "" then "" else "This player played for Brighton during " ++ era ++ "."

/-- Embeds the goals clue of `build_clues`.  After the load-time
`fillna("")` no value is NA, so the `pd.notna` guard in the source is
always true and the clue is always produced. -/
def goals_clue (p : Player) : String :=
  "This player scored " ++ toString p.league_goals ++ " league goals for Brighton."

/-- Tier 1 (hard, vague) clue candidates, in source order.  The era entry is
kept only when there is no seasons text, as in app.py line 224. -/
def tier_1 (p : Player) : List Clue :=
  [ ((if p.seasons = "" then era_clue p else ""), [FactTag.era]),
    ("This player was born in " ++ p.place_of_birth ++ ", " ++ p.country_of_birth ++
      " and has " ++ toString p.spells ++ " spell(s) at Brighton.",
      [FactTag.birth, FactTag.spells]),
    ((if p.seasons = "" then "" else "Seasons at Brighton: " ++ p.seasons),
      [FactTag.seasons]),
    ((if p.seasons2 = "" then "" else
        "Seasons at Brighton during second spell: " ++ p.seasons2),
      [FactTag.seasons2]) ]

/-- Tier 2 (medium) clue candidates, in source order. -/
def tier_2 (p : Player) : List Clue :=
  [ ("This player made " ++ toString p.league_appearances ++
      " league appearances for Brighton.", [FactTag.appearances]),
    (goals_clue p, [FactTag.goals]),
    ("This player joined Brighton from " ++ p.joined_from, [FactTag.joined_from]),
    (left_for_clue p, [FactTag.left_for]) ]

/-- Tier 3 (easy, revealing) clue candidates, in source order. -/
def tier_3 (p : Player) : List Clue :=
  [ ("This player is a " ++ p.position ++ ".", [FactTag.position]),
    ("This player was born on " ++ p.date_of_birth ++ ", in " ++ p.place_of_birth ++
      ", " ++ p.country_of_birth ++ ".", [FactTag.birth]) ]

/-- Embeds the per-tier cleanup `[(c, t) for c, t in tier if c.strip()]`. -/
def filterClues (l : List Clue) : List Clue :=
  l.filter (fun c => pyStrip c.1 != "")

/-- Embeds the final linear pass of `build_clues`: walk the candidates and
keep a clue only when none of its tags has been used yet. -/
def dedup_pass (used : List FactTag) : List Clue → List Clue
  | [] => []
  | (c, tags) :: rest =>
    if tags.any (fun t => used.contains t) then
      dedup_pass used rest
    else
      (c, tags) :: dedup_pass (used ++ tags) rest

/-- The clue list of `build_clues` together with the fact tags of each kept
clue.  The three arguments `σ1 σ2 σ3` embed the seeded in-tier shuffles
`rng.shuffle(tier_i)`: for a given seed each is some permutation of its
input, so quantifying over them covers every seed. -/
def build_clues_tagged (p : Player) (σ1 σ2 σ3 : List Clue → List Clue) : List Clue :=
  dedup_pass []
    (σ1 (filterClues (tier_1 p)) ++ σ2 (filterClues (tier_2 p)) ++
      σ3 (filterClues (tier_3 p)))

/-- Embeds `build_clues` from app.py, which returns the clue texts. -/
def build_clues (p : Player) (σ1 σ2 σ3 : List Clue → List Clue) : List String :=
  (build_clues_tagged p σ1 σ2 σ3).map Prod.fst

/-- The identity permutation of a tier, one concrete realisation of the
seeded shuffle. -/
def idPerm : List Clue → List Clue := fun l => l

/-- Error raised by daily selection.  It embeds the `IndexError` that
`rng.choice` raises on an empty sequence, which on this code path happens
exactly when the eligible pool is empty. -/
inductive SelectionError
  | noEligiblePlayers
deriving DecidableEq, Repr

/-- Result of one daily selection: the chosen index, the persisted history
file after the call, and whether the call wrote the file. -/
structure SelectResult where
  index : Nat
  file : List (Int × Nat)
  wrote : Bool
deriving DecidableEq, Repr

/-- First value stored under a date key, embedding Python dict lookup (the
parsed JSON dict has distinct keys). -/
def lookupDate (d : Int) : List (Int × Nat) → Option Nat
  | [] => none
  | (d', i) :: rest => if d' = d then some i else lookupDate d rest

/-- Embeds the 30-day cleanup in `get_daily_player`: keep entries whose date
is at least `today - 30`. -/
def pruneHistory (today : Int) (h : List (Int × Nat)) : List (Int × Nat) :=
  h.filter (fun e => today - 30 ≤ e.1)

/-- League appearances of the catalog entry at an index (0 when out of
range; the callers only use in-range indices). -/
def appearancesAt (catalog : List Player) (idx : Nat) : Nat :=
  match catalog.get? idx with
  | some p => p.league_appearances
  | none => 0

/-- Embeds the eligible pool of `get_daily_player`: all catalog indices with
at least one league appearance. -/
def eligible_indices (catalog : List Player) : List Nat :=
  (List.range catalog.length).filter (fun idx => decide (0 < appearancesAt catalog idx))

/-- Embeds `get_daily_player` from app.py.  `choice` embeds
`random.Random(seed).choice` (the seed is a function of the date alone, so
it is passed the date); `debugOverride` embeds the debug-mode
`current_player_index` short-circuit, which is `none` in production.  The
returned `file` is the persisted history after the call; on the cached path
the function returns without saving, so the file is unchanged. -/
def get_daily_player (choice : Int → List Nat → Nat) (catalog : List Player)
    (debugOverride : Option Nat) (today : Int) (file : List (Int × Nat)) :
    Except SelectionError SelectResult :=
  match debugOverride with
  | some idx => .ok { index := idx, file := file, wrote := false }
  | none =>
    let recent := pruneHistory today file
    match lookupDate today recent with
    | some idx => .ok { index := idx, file := file, wrote := false }
    | none =>
      let recently_used := recent.map Prod.snd
      let all_indices := eligible_indices catalog
      let avail0 := all_indices.filter (fun idx => !(recently_used.contains idx))
      let available := if avail0 = [] then all_indices else avail0
      if available = [] then .error .noEligiblePlayers
      else
        let selected := choice today available
        .ok { index := selected, file := recent ++ [(today, selected)], wrote := true }

/-- Run daily selection (in production mode) on consecutive dates starting
at `start`, threading the persisted history, and collect the chosen
indices. -/
def run_days (choice : Int → List Nat → Nat) (catalog : List Player) :
    Int → Nat → List (Int × Nat) → Except SelectionError (List Nat × List (Int × Nat))
  | _, 0, file => .ok ([], file)
  | start, k + 1, file =>
    match get_daily_player choice catalog none start file with
    | .error e => .error e
    | .ok r =>
      match run_days choice catalog (start + 1) k r.file with
      | .error e => .error e
      | .ok (rest, f) => .ok (r.index :: rest, f)

/-- History made of consecutive dates from `start` paired with a list of
indices (the shape the file has after a run from empty history). -/
def mkHist (start : Int) : List Nat → List (Int × Nat)
  | [] => []
  | i :: rest => (start, i) :: mkHist (start + 1) rest

/-- A concrete deterministic draw used to witness the selection theorems:
always pick the first element of the pool. -/
def headChoice : Int → List Nat → Nat := fun _ l => l.headD 0

/-- Gregorian leap year test, as in Python `datetime`. -/
def isLeapYear (y : Nat) : Bool :=
  (y % 4 == 0 && y % 100 != 0) || y % 400 == 0

/-- Length of a month, as validated by Python `datetime`. -/
def daysInMonth (y m : Nat) : Nat :=
  if m = 2 then (if isLeapYear y then 29 else 28)
  else if m = 4 ∨ m = 6 ∨ m = 9 ∨ m = 11 then 30
  else 31

/-- A Python `datetime` value as produced by `datetime.fromisoformat`. -/
structure PyDateTime where
  year : Nat
  month : Nat
  day : Nat
  hour : Nat
  minute : Nat
  second : Nat
deriving DecidableEq, Repr

/-- Parse the `HH:MM:SS` part of an ISO datetime string. -/
def parseTimePart : List Char → Option (Nat × Nat × Nat)
  | [h1, h2, c1, m1, m2, c2, s1, s2] =>
    if h1.isDigit && h2.isDigit && c1 == ':' && m1.isDigit && m2.isDigit &&
        c2 == ':' && s1.isDigit && s2.isDigit then
      let h := digitVal h1 * 10 + digitVal h2
      let m := digitVal m1 * 10 + digitVal m2
      let s := digitVal s1 * 10 + digitVal s2
      if h < 24 && m < 60 && s < 60 then some (h, m, s) else none
    else none
  | _ => none

/-- Models `datetime.fromisoformat` on the canonical forms the repository
reads and writes: `YYYY-MM-DD` and `YYYY-MM-DDTHH:MM:SS`, with calendar
validation; `none` embeds the `ValueError` raised on any other string. -/
def parseIsoDateTime (s : String) : Option PyDateTime :=
  match s.data with
  | y1 :: y2 :: y3 :: y4 :: s1 :: m1 :: m2 :: s2 :: d1 :: d2 :: rest =>
    if y1.isDigit && y2.isDigit && y3.isDigit && y4.isDigit && s1 == '-' &&
        m1.isDigit && m2.isDigit && s2 == '-' && d1.isDigit && d2.isDigit then
      let y := digitVal y1 * 1000 + digitVal y2 * 100 + digitVal y3 * 10 + digitVal y4
      let m := digitVal m1 * 10 + digitVal m2
      let d := digitVal d1 * 10 + digitVal d2
      if 1 ≤ m && m ≤ 12 && 1 ≤ d && d ≤ daysInMonth y m then
        match rest with
        | [] => some ⟨y, m, d, 0, 0, 0⟩
        | 'T' :: timecs =>
          match parseTimePart timecs with
          | some (h, mi, se) => some ⟨y, m, d, h, mi, se⟩
          | none => none
        | _ => none
      else none
    else none
  | _ => none

/-- The state of the `recent_players.json` file, by how `open` and
`json.load` treat it: absent, present but not syntactically valid JSON,
valid JSON that is a (string-keyed) object, or valid JSON of any other
shape.  Values are integers, the only kind the repository writes; `load`
never inspects the values, so this loses nothing. -/
inductive FileContent
  | missing
  | notJson (raw : String)
  | jsonObj (entries : List (String × Int))
  | jsonNonObj
deriving Repr

/-- Errors that `load_recent_players` can propagate to its caller:
`valueError` embeds the `ValueError` of `datetime.fromisoformat` on a bad
key (not caught, since only `json.JSONDecodeError` is listed), and
`attributeError` embeds `data.items()` failing on a non-object document. -/
inductive LoadError
  | valueError
  | attributeError
deriving DecidableEq, Repr

/-- The conversion loop of `load_recent_players`: re-key every entry by the
parsed datetime, stopping with `ValueError` at the first bad key. -/
def convertEntries : List (String × Int) → Except LoadError (List (PyDateTime × Int))
  | [] => .ok []
  | (k, v) :: rest =>
    match parseIsoDateTime k with
    | none => .error .valueError
    | some d =>
      match convertEntries rest with
      | .error e => .error e
      | .ok m => .ok ((d, v) :: m)

/-- Embeds `load_recent_players` from app.py: a missing file or JSON syntax
error is caught and yields the empty mapping; any other failure escapes. -/
def load_recent_players : FileContent → Except LoadError (List (PyDateTime × Int))
  | .missing => .ok []
  | .notJson _ => .ok []
  | .jsonNonObj => .error .attributeError
  | .jsonObj entries => convertEntries entries

/-- Replace the four curly quote characters by their straight ASCII
counterparts, as the `normalize` helper in `check_guess` does (each Python
`replace` is a single-character substitution, so the chain is a character
map). -/
def normalizeChar (c : Char) : Char :=
  if c = '\u2019' then '\u0027'
  else if c = '\u2018' then '\u0027'
  else if c = '\u201c' then '\u0022'
  else if c = '\u201d' then '\u0022'
  else c

/-- Embeds the `normalize` helper of `check_guess`. -/
def pyNormalize (s : String) : String := ⟨s.data.map normalizeChar⟩

/-- Python `str.lower`, modelled on the ASCII range. -/
def pyLowerChar (c : Char) : Char :=
  if 'A' ≤ c ∧ c ≤ 'Z' then Char.ofNat (c.toNat + 32) else c

/-- Python `str.lower` on a string, modelled on the ASCII range. -/
def pyLower (s : String) : String := ⟨s.data.map pyLowerChar⟩

/-- Response of the guess endpoint: correctness flag, and the full name only
on a correct guess. -/
structure GuessResponse where
  correct : Bool
  fullName : Option String
deriving DecidableEq, Repr

/-- Embeds `check_guess` from app.py for a resolved player record: lower
both guesses, normalize quotes on both sides, compare against the derived
first and last names, and attach the full name exactly on success. -/
def check_guess (p : Player) (guess_first guess_last : String) : GuessResponse :=
  let gf := pyLower guess_first
  let gl := pyLower guess_last
  let first := (split_name p.name).1
  let last := (split_name p.name).2
  let is_correct :=
    pyNormalize gf == pyNormalize (pyLower first) &&
      pyNormalize gl == pyNormalize (pyLower last)
  { correct := is_correct
    fullName := if is_correct then some (pyStrip (first ++ " " ++ last)) else none }

/-- The JSON payload of the daily-challenge endpoint. -/
structure ChallengeResponse where
  firstNameLength : Nat
  lastNameLength : Nat
  firstClue : String
  player_id : Nat
  firstName : String
  lastName : String
deriving DecidableEq, Repr

/-- Error of the challenge endpoint; embeds the `IndexError` of `clues[0]`
on an empty clue list. -/
inductive ApiError
  | indexError
deriving DecidableEq, Repr

/-- Embeds the response construction of `get_challenge` in app.py, given the
selected player and its index. -/
def get_challenge (player_id : Nat) (p : Player)
    (σ1 σ2 σ3 : List Clue → List Clue) : Except ApiError ChallengeResponse :=
  match build_clues p σ1 σ2 σ3 with
  | [] => .error .indexError
  | c :: _ =>
    .ok { firstNameLength := ((split_name p.name).1).length
          lastNameLength := ((split_name p.name).2).length
          firstClue := c
          player_id := player_id
          firstName := (split_name p.name).1
          lastName := (split_name p.name).2 }

/-- Render a clue template: alternating literal and data-dependent pieces,
closed by a final literal.  Used to reason about substring leakage. -/
def renderPieces : List (List Char × List Char) → List Char → List Char
  | [], final => final
  | (lit, f) :: rest, final => lit ++ (f ++ renderPieces rest final)

/-- The literals that can immediately follow a data-dependent piece in a
rendered clue (the next template literal, or the closing literal when it is
nonempty). -/
def nextLits (ps : List (List Char × List Char)) (final : List Char) : List (List Char) :=
  (ps.map Prod.fst).drop 1 ++ (if final = [] then [] else [final])

/-- The raw texts interpolated into clue sentences for a player (free-text
columns and the rendered numeric columns). -/
def clue_field_texts (p : Player) : List String :=
  [p.place_of_birth, p.country_of_birth, p.date_of_birth, p.seasons,
    p.seasons2, p.joined_from, p.position, toString p.spells,
    toString p.league_appearances, toString p.league_goals]

/-- The two substrings that must not leak for a retired player. -/
def bad_substrings : List String := ["Retired", "left Brighton to join"]

/-- The Lewis Dunk record of the specification example (CSV row 72):
still at the club, one spell, seasons text present. -/
def lewisDunk : Player :=
  { name := "Lewis Dunk"
    date_of_birth := "21 November 1991"
    place_of_birth := "Brighton"
    country_of_birth := "England"
    position := "Defender"
    league_appearances := 436
    league_goals := 24
    spells := 1
    seasons := "2010–2024"
    seasons2 := ""
    joined_from := "Academy"
    left_for := "Still at club" }

/-- A player record whose left-for text contains "Retired" and whose
position text also contains "Retired". -/
def retiredPositionPlayer : Player :=
  { name := "Test Player"
    date_of_birth := "1 January 1980"
    place_of_birth := "Brighton"
    country_of_birth := "England"
    position := "Retired goalkeeper"
    league_appearances := 10
    league_goals := 0
    spells := 1
    seasons := "2000–2005"
    seasons2 := ""
    joined_from := "Academy"
    left_for := "Retired" }

/-- The Mark O'Mahony record used by the guess-check example (straight
apostrophe in the stored name). -/
def markOMahony : Player :=
  { name := "Mark O\u0027Mahony"
    date_of_birth := "28 October 2004"
    place_of_birth := "Cork"
    country_of_birth := "Ireland"
    position := "Forward"
    league_appearances := 3
    league_goals := 0
    spells := 1
    seasons := "2024–"
    seasons2 := ""
    joined_from := "Academy"
    left_for := "Still at club" }

/-- A minimal eligible player used by selection witnesses. -/
def eligiblePlayer : Player :=
  { name := "A B"
    date_of_birth := "1 January 1990"
    place_of_birth := "X"
    country_of_birth := "Y"
    position := "Defender"
    league_appearances := 1
    league_goals := 0
    spells := 1
    seasons := "2010–2011"
    seasons2 := ""
    joined_from := "Z"
    left_for := "Retired" }

/-- A catalog of thirty eligible players, for the no-repeat witness. -/
def catalog30 : List Player := List.replicate 30 eligiblePlayer

/-- Literal-only side conditions under which a rendered clue cannot contain
a pattern: the pattern is in no literal, no nonempty proper prefix of the
pattern is a suffix of a literal preceding a data piece, and no nonempty
proper suffix of the pattern matches up with a literal that follows a data
piece.  All components are concrete, so this is decidable by evaluation. -/
abbrev litConds (pat : List Char) (lits : List (List Char)) (final : List Char) : Prop :=
  (¬ pat <:+: final) ∧
  (∀ lit ∈ lits, ¬ pat <:+: lit ∧
    ∀ k, k < pat.length → 0 < k → ¬ pat.take k <:+ lit) ∧
  (∀ nl ∈ lits.drop 1 ++ (if final = [] then [] else [final]),
    ∀ k, k < pat.length → 0 < k →
      ¬ pat.drop k <+: nl ∧ ¬ nl <+: pat.drop k)


/-! ### Clue dedup (C1) -/

/-- Every clue kept by the dedup pass comes from its input list. -/
theorem mem_of_mem_dedup_pass :
    ∀ (l : List Clue) (used : List FactTag) (cl : Clue),
      cl ∈ dedup_pass used l → cl ∈ l := by
  intro l
  induction l with
  | nil => intro used cl h; simp [dedup_pass] at h
  | cons hd tl ih =>
    intro used cl h
    obtain ⟨c, tags⟩ := hd
    simp only [dedup_pass] at h
    split at h
    · exact List.mem_cons_of_mem _ (ih used cl h)
    · rcases List.mem_cons.mp h with rfl | h2
      · exact List.mem_cons_self _ _
      · exact List.mem_cons_of_mem _ (ih _ cl h2)

/-- No clue kept by the dedup pass uses a tag that was already used. -/
theorem dedup_pass_tags_fresh :
    ∀ (l : List Clue) (used : List FactTag) (cl : Clue),
      cl ∈ dedup_pass used l → ∀ t ∈ cl.2, t ∉ used := by
  intro l
  induction l with
  | nil => intro used cl h; simp [dedup_pass] at h
  | cons hd tl ih =>
    intro used cl h t ht
    obtain ⟨c, tags⟩ := hd
    simp only [dedup_pass] at h
    split at h
    next hcond =>
      exact ih used cl h t ht
    next hcond =>
      rcases List.mem_cons.mp h with rfl | h2
      · intro htu
        apply hcond
        simp only [List.any_eq_true]
        exact ⟨t, ht, by simpa using htu⟩
      · intro htu
        exact ih (used ++ tags) cl h2 t ht (List.mem_append_left _ htu)

/-- The dedup pass produces clues with pairwise disjoint tag sets. -/
theorem dedup_pass_pairwise :
    ∀ (l : List Clue) (used : List FactTag),
      (dedup_pass used l).Pairwise (fun a b => ∀ t ∈ a.2, t ∉ b.2) := by
  intro l
  induction l with
  | nil => intro used; simp [dedup_pass]
  | cons hd tl ih =>
    intro used
    obtain ⟨c, tags⟩ := hd
    simp only [dedup_pass]
    split
    · exact ih used
    · refine List.Pairwise.cons ?_ (ih (used ++ tags))
      intro b hb t ht htb
      exact dedup_pass_tags_fresh tl (used ++ tags) b hb t htb
        (List.mem_append_right used ht)

/-- C1: for every player record and every triple of tier shuffles (hence for
every seed), the clue list built by build_clues has pairwise disjoint
fact-tag sets, so each underlying fact is revealed by at most one clue; the
returned strings are exactly the texts of these tagged clues. -/
theorem C1_build_clues_fact_dedup (p : Player) (σ1 σ2 σ3 : List Clue → List Clue) :
    (build_clues_tagged p σ1 σ2 σ3).Pairwise (fun a b => ∀ t ∈ a.2, t ∉ b.2) ∧
    build_clues p σ1 σ2 σ3 = (build_clues_tagged p σ1 σ2 σ3).map Prod.fst :=
  ⟨dedup_pass_pairwise _ _, rfl⟩

/-! ### History bookkeeping lemmas -/

/-- Lookup of a date is unchanged by a filter that keeps every entry with
that date. -/
theorem lookupDate_filter (d : Int) (p : Int × Nat → Bool) (h : List (Int × Nat))
    (hp : ∀ e : Int × Nat, e.1 = d → p e = true) :
    lookupDate d (h.filter p) = lookupDate d h := by
  induction h with
  | nil => rfl
  | cons e rest ih =>
    obtain ⟨d2, i⟩ := e
    by_cases hd : d2 = d
    · rw [List.filter_cons_of_pos (hp (d2, i) hd)]
      simp [lookupDate, hd]
    · cases hpe : p (d2, i) with
      | false =>
        rw [List.filter_cons_of_neg (by simp [hpe])]
        rw [show lookupDate d ((d2, i) :: rest) = lookupDate d rest from by
          simp [lookupDate, hd]]
        exact ih
      | true =>
        rw [List.filter_cons_of_pos hpe]
        simp only [lookupDate, if_neg hd]
        exact ih

/-- The 30-day prune never touches the entry for the pruning date itself. -/
theorem lookupDate_prune (d : Int) (h : List (Int × Nat)) :
    lookupDate d (pruneHistory d h) = lookupDate d h := by
  apply lookupDate_filter
  intro e he
  simp only [decide_eq_true_eq, he]
  omega

/-- Pruning is idempotent. -/
theorem prune_prune (d : Int) (h : List (Int × Nat)) :
    pruneHistory d (pruneHistory d h) = pruneHistory d h := by
  apply List.filter_eq_self.mpr
  intro e he
  exact (List.mem_filter.mp he).2

/-- Lookup walks past a block with no matching key. -/
theorem lookupDate_append (d : Int) (h1 h2 : List (Int × Nat))
    (h : lookupDate d h1 = none) :
    lookupDate d (h1 ++ h2) = lookupDate d h2 := by
  induction h1 with
  | nil => rfl
  | cons e rest ih =>
    obtain ⟨d2, i⟩ := e
    by_cases hd : d2 = d
    · simp [lookupDate, hd] at h
    · simp only [lookupDate, if_neg hd, List.cons_append] at *
      exact ih h

/-! ### Daily selection: idempotence (C2) -/

/-- After a fresh selection wrote the file, a further call on the same date
takes the cached path: it returns the recorded index and does not write. -/
theorem second_call_cached (choice : Int → List Nat → Nat)
    (catalog : List Player) (today : Int) (file : List (Int × Nat))
    (sel : Nat) (newfile : List (Int × Nat))
    (hnew : newfile = pruneHistory today file ++ [(today, sel)])
    (hnone : lookupDate today (pruneHistory today file) = none) :
    get_daily_player choice catalog none today newfile =
      .ok { index := sel, file := newfile, wrote := false } := by
  have hsome : lookupDate today (pruneHistory today newfile) = some sel := by
    rw [lookupDate_prune, hnew, lookupDate_append today _ _ hnone]
    simp [lookupDate]
  simp only [get_daily_player, hsome]

/-- C2: daily selection is idempotent per date.  If the history already has
an entry for the date, get_daily_player returns that index and leaves the
persisted file untouched (it returns before saving); and after any
successful call, a second call on the same date returns the same index and
leaves the persisted file exactly as the first call left it, without
writing. -/
theorem C2_selection_idempotent (choice : Int → List Nat → Nat)
    (catalog : List Player) (today : Int) (file : List (Int × Nat)) :
    (∀ idx, lookupDate today file = some idx →
      get_daily_player choice catalog none today file =
        .ok { index := idx, file := file, wrote := false }) ∧
    (∀ r, get_daily_player choice catalog none today file = .ok r →
      get_daily_player choice catalog none today r.file =
        .ok { index := r.index, file := r.file, wrote := false }) := by
  constructor
  · intro idx hidx
    simp only [get_daily_player, lookupDate_prune, hidx]
  · intro r hr
    simp only [get_daily_player] at hr
    split at hr
    next idx hlk =>
      injection hr with hr
      subst hr
      simp only [get_daily_player, hlk]
    next hlk =>
      split at hr
      · split at hr
        · exact Except.noConfusion hr
        · injection hr with hr
          subst hr
          exact second_call_cached choice catalog today file _ _ rfl hlk
      · injection hr with hr
        subst hr
        exact second_call_cached choice catalog today file _ _ rfl hlk

/-! ### Daily selection: empty pool (C4) -/

/-- C4: with an empty eligible pool and no history entry for the date,
selection fails with the empty-pool error (the embedded IndexError of
rng.choice on the empty sequence), not with success or any other outcome. -/
theorem C4_empty_pool (choice : Int → List Nat → Nat) (catalog : List Player)
    (today : Int) (file : List (Int × Nat))
    (helig : eligible_indices catalog = [])
    (hlook : lookupDate today file = none) :
    get_daily_player choice catalog none today file =
      .error .noEligiblePlayers := by
  simp only [get_daily_player, lookupDate_prune, hlook, helig]
  rfl

/-- Witness for C4 at a concrete empty catalog. -/
theorem C4_empty_pool_witness :
    (eligible_indices ([] : List Player) = [] ∧
      lookupDate 0 ([] : List (Int × Nat)) = none) ∧
    get_daily_player headChoice [] none 0 [] = .error .noEligiblePlayers :=
  ⟨⟨rfl, rfl⟩, C4_empty_pool headChoice [] 0 [] rfl rfl⟩


/-! ### Daily selection: 30-day no-repeat window (C3) -/

/-- Dates stored in a consecutive-days history lie in the expected range. -/
theorem mkHist_date_bounds :
    ∀ (sels : List Nat) (start : Int) (e : Int × Nat),
      e ∈ mkHist start sels → start ≤ e.1 ∧ e.1 < start + sels.length := by
  intro sels
  induction sels with
  | nil => intro start e h; simp [mkHist] at h
  | cons x rest ih =>
    intro start e h
    simp only [mkHist, List.mem_cons] at h
    rcases h with rfl | h
    · simp only [List.length_cons]
      constructor
      · exact le_refl start
      · push_cast
        omega
    · have := ih (start + 1) e h
      simp only [List.length_cons]
      push_cast at *
      omega

/-- The stored indices of a consecutive-days history. -/
theorem mkHist_map_snd :
    ∀ (sels : List Nat) (start : Int), (mkHist start sels).map Prod.snd = sels := by
  intro sels
  induction sels with
  | nil => intro start; rfl
  | cons x rest ih => intro start; simp [mkHist, ih]

/-- Appending one day to a consecutive-days history. -/
theorem mkHist_append_one :
    ∀ (sels : List Nat) (start : Int) (x : Nat),
      mkHist start (sels ++ [x]) = mkHist start sels ++ [(start + sels.length, x)] := by
  intro sels
  induction sels with
  | nil => intro start x; simp [mkHist]
  | cons y rest ih =>
    intro start x
    rw [show (y :: rest) ++ [x] = y :: (rest ++ [x]) from rfl]
    simp only [mkHist]
    rw [ih (start + 1) x]
    simp only [List.cons_append, List.length_cons]
    have e : ((start + 1) + (rest.length : Int)) =
        start + ((rest.length + 1 : Nat) : Int) := by
      push_cast
      ring
    rw [e]

/-- Pruning keeps a history whose entries are all within the window. -/
theorem prune_eq_self (d : Int) (h : List (Int × Nat))
    (hall : ∀ e ∈ h, d - 30 ≤ e.1) : pruneHistory d h = h := by
  apply List.filter_eq_self.mpr
  intro e he
  simpa using hall e he

/-- Lookup misses when no entry has the key. -/
theorem lookup_none (d : Int) (h : List (Int × Nat))
    (hall : ∀ e ∈ h, e.1 ≠ d) : lookupDate d h = none := by
  induction h with
  | nil => rfl
  | cons e rest ih =>
    obtain ⟨d2, i⟩ := e
    simp only [lookupDate]
    rw [if_neg (hall (d2, i) (by simp))]
    exact ih (fun e he => hall e (List.mem_cons_of_mem _ he))

/-- A duplicate-free list included in another list is no longer than it. -/
theorem nodup_subset_length :
    ∀ (a b : List Nat), a.Nodup → (∀ x ∈ a, x ∈ b) → a.length ≤ b.length := by
  intro a
  induction a with
  | nil => intro b _ _; simp
  | cons x rest ih =>
    intro b hnd hsub
    have hx : x ∈ b := hsub x (by simp)
    have hnd2 := List.nodup_cons.mp hnd
    have hsub2 : ∀ y ∈ rest, y ∈ b.erase x := by
      intro y hy
      refine (List.mem_erase_of_ne ?_).mpr (hsub y (List.mem_cons_of_mem _ hy))
      intro hxy
      subst hxy
      exact hnd2.1 hy
    have h1 := ih (b.erase x) hnd2.2 hsub2
    have h2 : (b.erase x).length = b.length - 1 := List.length_erase_of_mem hx
    have h3 : 0 < b.length := List.length_pos_of_mem hx
    simp only [List.length_cons]
    omega

/-- A filter splits the length of a list in two. -/
theorem filter_partition_length (l : List Nat) (p : Nat → Bool) :
    (l.filter p).length + (l.filter (fun x => !(p x))).length = l.length := by
  induction l with
  | nil => rfl
  | cons x rest ih =>
    cases hp : p x <;> simp [List.filter_cons, hp, ← ih] <;> omega

/-- Removing the recently used indices from a duplicate-free pool drops at
most as many entries as were recently used. -/
theorem avail_length (l used : List Nat) (hnd : l.Nodup) :
    l.length ≤ (l.filter (fun x => !(used.contains x))).length + used.length := by
  have hpart := filter_partition_length l (fun x => !(used.contains x))
  have hdropnd : (l.filter (fun x => !(!(used.contains x)))).Nodup := hnd.filter _
  have hdropsub : ∀ x ∈ l.filter (fun x => !(!(used.contains x))), x ∈ used := by
    intro x hx
    have h2 := (List.mem_filter.mp hx).2
    simpa using h2
  have h3 := nodup_subset_length _ used hdropnd hdropsub
  omega

/-- Invariant of a run of consecutive fresh days starting from a history of
consecutive previous days: the run succeeds, every chosen index is eligible,
all selected indices (old and new) stay pairwise distinct, and the file
stays a consecutive-days history. -/
theorem run_days_distinct_aux (choice : Int → List Nat → Nat) (catalog : List Player)
    (hchoice : ∀ (d : Int) (l : List Nat), l ≠ [] → choice d l ∈ l)
    (helig : 30 ≤ (eligible_indices catalog).length) :
    ∀ (k : Nat) (sels : List Nat) (start : Int),
      sels.length + k ≤ 30 → sels.Nodup →
      (∀ i ∈ sels, i ∈ eligible_indices catalog) →
      ∃ news f,
        run_days choice catalog (start + sels.length) k (mkHist start sels) =
          .ok (news, f) ∧
        (sels ++ news).Nodup ∧
        (∀ i ∈ news, i ∈ eligible_indices catalog) ∧
        f = mkHist start (sels ++ news) := by
  intro k
  induction k with
  | zero =>
    intro sels start hlen hnd hsub
    exact ⟨[], mkHist start sels, rfl, by simpa using hnd, by simp, by simp⟩
  | succ k ih =>
    intro sels start hlen hnd hsub
    have hprune : pruneHistory (start + sels.length) (mkHist start sels) =
        mkHist start sels := by
      apply prune_eq_self
      intro e he
      have := mkHist_date_bounds sels start e he
      omega
    have hlook : lookupDate (start + sels.length) (mkHist start sels) = none := by
      apply lookup_none
      intro e he
      have := mkHist_date_bounds sels start e he
      omega
    have hlen2 : 1 ≤ ((eligible_indices catalog).filter
        (fun i => !(sels.contains i))).length := by
      have h1 := avail_length (eligible_indices catalog) sels
        ((List.nodup_range _).filter _)
      omega
    have hne : (eligible_indices catalog).filter (fun i => !(sels.contains i)) ≠ [] := by
      intro h0
      rw [h0] at hlen2
      simp at hlen2
    have hchosen := hchoice (start + sels.length) _ hne
    have hcel : choice (start + sels.length)
        ((eligible_indices catalog).filter (fun i => !(sels.contains i))) ∈
        eligible_indices catalog := (List.mem_filter.mp hchosen).1
    have hcns : choice (start + sels.length)
        ((eligible_indices catalog).filter (fun i => !(sels.contains i))) ∉ sels := by
      have h2 := (List.mem_filter.mp hchosen).2
      simpa using h2
    set chosen := choice (start + sels.length)
        ((eligible_indices catalog).filter (fun i => !(sels.contains i))) with hch
    have hstep : get_daily_player choice catalog none (start + sels.length)
        (mkHist start sels) =
        .ok { index := chosen,
              file := mkHist start sels ++ [((start + sels.length : Int), chosen)],
              wrote := true } := by
      simp only [get_daily_player, hprune, hlook, mkHist_map_snd, if_neg hne]
    have hlen3 : (sels ++ [chosen]).length + k ≤ 30 := by simp; omega
    have hnd3 : (sels ++ [chosen]).Nodup := by
      rw [List.nodup_append]
      exact ⟨hnd, List.nodup_singleton _, by simpa using hcns⟩
    have hsub3 : ∀ i ∈ sels ++ [chosen], i ∈ eligible_indices catalog := by
      intro i hi
      rcases List.mem_append.mp hi with h | h
      · exact hsub i h
      · simp at h
        subst h
        exact hcel
    obtain ⟨news, f, hrun, hnd4, hsub4, hf⟩ := ih (sels ++ [chosen]) start hlen3 hnd3 hsub3
    have hrun2 : run_days choice catalog ((start + sels.length) + 1) k
        (mkHist start sels ++ [((start + sels.length : Int), chosen)]) = .ok (news, f) := by
      have e1 : ((start + sels.length) + 1 : Int) = start + ((sels ++ [chosen]).length : Int) := by
        simp
        ring
      have e2 : mkHist start sels ++ [((start + sels.length : Int), chosen)] =
          mkHist start (sels ++ [chosen]) := (mkHist_append_one sels start chosen).symm
      rw [e1, e2]
      exact hrun
    refine ⟨chosen :: news, f, ?_, ?_, ?_, ?_⟩
    · simp only [run_days, hstep, hrun2]
    · have e3 : sels ++ chosen :: news = (sels ++ [chosen]) ++ news := by simp
      rw [e3]
      exact hnd4
    · intro i hi
      rcases List.mem_cons.mp hi with rfl | h
      · exact hcel
      · exact hsub4 i h
    · rw [hf]
      congr 1
      simp

/-- C3: starting from an empty history, a run over at most thirty
consecutive dates with an eligible pool of at least thirty players succeeds
and selects pairwise distinct indices. -/
theorem C3_no_repeat_window (choice : Int → List Nat → Nat) (catalog : List Player)
    (start : Int) (k : Nat)
    (hk : k ≤ 30)
    (hchoice : ∀ (d : Int) (l : List Nat), l ≠ [] → choice d l ∈ l)
    (helig : 30 ≤ (eligible_indices catalog).length) :
    ∃ sels f, run_days choice catalog start k [] = .ok (sels, f) ∧ sels.Nodup := by
  obtain ⟨news, f, hrun, hnd, _, _⟩ :=
    run_days_distinct_aux choice catalog hchoice helig k [] start (by simpa) (by simp)
      (by simp)
  exact ⟨news, f, by simpa using hrun, by simpa using hnd⟩

/-- Witness for C3: two consecutive days over a pool of thirty eligible
players give two distinct indices. -/
theorem C3_no_repeat_window_witness :
    (2 ≤ 30 ∧ 30 ≤ (eligible_indices catalog30).length) ∧
    ∃ sels f, run_days headChoice catalog30 0 2 [] = .ok (sels, f) ∧ sels.Nodup :=
  ⟨⟨by decide, by decide⟩,
    C3_no_repeat_window headChoice catalog30 0 2 (by decide)
      (fun d l h => by
        cases l with
        | nil => exact absurd rfl h
        | cons a t => exact List.mem_cons_self a t)
      (by decide)⟩


/-! ### Daily selection: pool exhaustion fallback (C5) -/

/-- C5: when the date is fresh, the eligible pool is nonempty but every
eligible index was used within the window, selection does not fail: it
draws from the full eligible pool and persists the pruned history plus the
single new entry, so no within-window entry is deleted by the fallback. -/
theorem C5_pool_exhaustion (choice : Int → List Nat → Nat) (catalog : List Player)
    (today : Int) (file : List (Int × Nat))
    (hchoice : ∀ (d : Int) (l : List Nat), l ≠ [] → choice d l ∈ l)
    (hlook : lookupDate today file = none)
    (hne : eligible_indices catalog ≠ [])
    (hex : ∀ i ∈ eligible_indices catalog,
      i ∈ (pruneHistory today file).map Prod.snd) :
    ∃ r, get_daily_player choice catalog none today file = .ok r ∧
      r.index = choice today (eligible_indices catalog) ∧
      r.index ∈ eligible_indices catalog ∧
      r.file = pruneHistory today file ++ [(today, r.index)] ∧
      (∀ e ∈ pruneHistory today file, e ∈ r.file) ∧
      r.wrote = true := by
  have hempty : (eligible_indices catalog).filter
      (fun i => !(((pruneHistory today file).map Prod.snd).contains i)) = [] := by
    apply List.filter_eq_nil_iff.mpr
    intro a ha
    simpa using hex a ha
  refine ⟨{ index := choice today (eligible_indices catalog)
            file := pruneHistory today file ++
              [(today, choice today (eligible_indices catalog))]
            wrote := true }, ?_, rfl, hchoice today _ hne, rfl, ?_, rfl⟩
  · simp only [get_daily_player, lookupDate_prune, hlook, hempty, if_true]
    rw [if_neg hne]
  · intro e he
    exact List.mem_append_left _ he

/-- Witness for C5: one eligible player already used yesterday. -/
theorem C5_pool_exhaustion_witness :
    (lookupDate 0 [((-1 : Int), 0)] = none ∧
      eligible_indices [eligiblePlayer] ≠ [] ∧
      (∀ i ∈ eligible_indices [eligiblePlayer],
        i ∈ (pruneHistory 0 [((-1 : Int), 0)]).map Prod.snd)) ∧
    (∃ r, get_daily_player headChoice [eligiblePlayer] none 0 [((-1 : Int), 0)] =
        .ok r ∧
      r.index = headChoice 0 (eligible_indices [eligiblePlayer]) ∧
      r.index ∈ eligible_indices [eligiblePlayer] ∧
      r.file = pruneHistory 0 [((-1 : Int), 0)] ++ [(0, r.index)] ∧
      (∀ e ∈ pruneHistory 0 [((-1 : Int), 0)], e ∈ r.file) ∧
      r.wrote = true) :=
  ⟨⟨by decide, by decide, by decide⟩,
    C5_pool_exhaustion headChoice [eligiblePlayer] 0 [((-1 : Int), 0)]
      (fun d l h => by
        cases l with
        | nil => exact absurd rfl h
        | cons a t => exact List.mem_cons_self a t)
      (by decide) (by decide) (by decide)⟩

/-! ### History loading (C9) -/

/-- C9 counterexample: content that is valid JSON (an object) but whose key
is not an ISO date makes load_recent_players propagate an error to its
caller instead of returning the empty mapping — json.JSONDecodeError is a
strict subclass of ValueError, and only the former is caught. -/
theorem C9_load_counterexample :
    load_recent_players (.jsonObj [("garbage", 5)]) = .error .valueError := rfl

/-- The conversion loop succeeds when every key parses. -/
theorem convertEntries_ok (entries : List (String × Int))
    (hall : ∀ e ∈ entries, (parseIsoDateTime e.1).isSome) :
    ∃ m, convertEntries entries = .ok m := by
  induction entries with
  | nil => exact ⟨[], rfl⟩
  | cons e rest ih =>
    obtain ⟨k, v⟩ := e
    have h1 := hall (k, v) (by simp)
    rcases hp : parseIsoDateTime k with _ | d
    · rw [hp] at h1
      simp at h1
    · obtain ⟨m, hm⟩ := ih (fun e he => hall e (List.mem_cons_of_mem _ he))
      exact ⟨(d, v) :: m, by simp [convertEntries, hp, hm]⟩

/-- C9 amended: loading fails soft exactly for the caught states — a
missing file or syntactically invalid JSON yields the empty mapping — while
JSON content of the wrong shape escapes: a non-object document raises
(AttributeError on items), and an object with a non-ISO key raises
(ValueError from fromisoformat); an object whose keys all parse loads
successfully. -/
theorem C9_load_amended :
    load_recent_players .missing = .ok [] ∧
    (∀ raw, load_recent_players (.notJson raw) = .ok []) ∧
    load_recent_players .jsonNonObj = .error .attributeError ∧
    (∀ (k : String) (v : Int) (rest : List (String × Int)),
      parseIsoDateTime k = none →
        load_recent_players (.jsonObj ((k, v) :: rest)) = .error .valueError) ∧
    (∀ entries : List (String × Int),
      (∀ e ∈ entries, (parseIsoDateTime e.1).isSome) →
        ∃ m, load_recent_players (.jsonObj entries) = .ok m) := by
  refine ⟨rfl, fun raw => rfl, rfl, ?_, ?_⟩
  · intro k v rest hk
    simp [load_recent_players, convertEntries, hk]
  · intro entries hall
    exact convertEntries_ok entries hall

/-! ### Daily challenge response (C10) -/

/-- C10: whenever the daily-challenge endpoint responds, the response
carries the selected player record derived first and last name in full, and
the two length hints are the lengths of those very strings. -/
theorem C10_challenge_reveals_names (pid : Nat) (p : Player)
    (σ1 σ2 σ3 : List Clue → List Clue) (r : ChallengeResponse)
    (h : get_challenge pid p σ1 σ2 σ3 = .ok r) :
    r.firstName = (split_name p.name).1 ∧ r.lastName = (split_name p.name).2 ∧
    r.firstNameLength = r.firstName.length ∧
    r.lastNameLength = r.lastName.length := by
  simp only [get_challenge] at h
  split at h
  · exact Except.noConfusion h
  · injection h with h
    subst h
    exact ⟨rfl, rfl, rfl, rfl⟩

/-- Witness for C10 at the Lewis Dunk record. -/
theorem C10_challenge_reveals_names_witness :
    get_challenge 72 lewisDunk idPerm idPerm idPerm = .ok
      { firstNameLength := 5
        lastNameLength := 4
        firstClue :=
          "This player was born in Brighton, England and has 1 spell(s) at Brighton."
        player_id := 72
        firstName := "Lewis"
        lastName := "Dunk" } ∧
    ("Lewis" = (split_name lewisDunk.name).1 ∧
      "Dunk" = (split_name lewisDunk.name).2 ∧
      5 = ("Lewis" : String).length ∧ 4 = ("Dunk" : String).length) :=
  ⟨rfl, C10_challenge_reveals_names 72 lewisDunk idPerm idPerm idPerm _ rfl⟩

/-! ### Guess checking (C8) -/

/-- Normalizing quotes commutes with lowering around a normalized input. -/
theorem normalize_lower_normalize_char (c : Char) :
    normalizeChar (pyLowerChar (normalizeChar c)) = normalizeChar (pyLowerChar c) := by
  by_cases h1 : c = '\u2019'
  · subst h1
    decide
  by_cases h2 : c = '\u2018'
  · subst h2
    decide
  by_cases h3 : c = '\u201c'
  · subst h3
    decide
  by_cases h4 : c = '\u201d'
  · subst h4
    decide
  have hc : normalizeChar c = c := by
    simp [normalizeChar, h1, h2, h3, h4]
  rw [hc]

/-- String version of the commutation. -/
theorem pyNormalize_pyLower_pyNormalize (s : String) :
    pyNormalize (pyLower (pyNormalize s)) = pyNormalize (pyLower s) := by
  obtain ⟨data⟩ := s
  simp only [pyNormalize, pyLower]
  congr 1
  induction data with
  | nil => rfl
  | cons c cs ih =>
    simp only [List.map_cons, List.cons.injEq]
    exact ⟨normalize_lower_normalize_char c, ih⟩

/-- The full name is attached exactly on a correct guess. -/
theorem isSome_ite_bool (b : Bool) (x : String) :
    (if b = true then some x else none).isSome = b := by
  cases b <;> rfl

/-- C8: guess checking is case-insensitive (the outcome depends on the
guesses only through their lowering), invariant under normalizing curly
quotes in the guess, accepts the curly-apostrophe guess against the stored
straight-apostrophe name Mark O Mahony, and returns the full name exactly
when the guess is correct. -/
theorem C8_guess_check :
    (∀ (p : Player) (g1 g1b g2 g2b : String),
      pyLower g1 = pyLower g1b → pyLower g2 = pyLower g2b →
      check_guess p g1 g2 = check_guess p g1b g2b) ∧
    (∀ (p : Player) (g1 g2 : String),
      check_guess p (pyNormalize g1) (pyNormalize g2) = check_guess p g1 g2) ∧
    check_guess markOMahony "Mark" "O\u2019Mahony" =
      { correct := true, fullName := some "Mark O\u0027Mahony" } ∧
    (∀ (p : Player) (g1 g2 : String),
      ((check_guess p g1 g2).fullName).isSome = (check_guess p g1 g2).correct) := by
  refine ⟨?_, ?_, ?_, ?_⟩
  · intro p g1 g1b g2 g2b h1 h2
    simp only [check_guess, h1, h2]
  · intro p g1 g2
    simp only [check_guess, pyNormalize_pyLower_pyNormalize]
  · rfl
  · intro p g1 g2
    simp only [check_guess]
    exact isSome_ite_bool _ _

/-! ### The Lewis Dunk clue example (C6) -/

/-- C6 at the Lewis Dunk record (leftFor "Still at club", seasons
"2010–2024"): the clue list does include the seasons clue and no era clue,
but — against the specification and the repository regression test — it
also always includes the literal still-at-the-club clue, because
build_clues emits it unconditionally whenever leftFor strips to
"Still at club".  This evaluation exhibits the divergence. -/
theorem C6_lewis_dunk_clues :
    "Seasons at Brighton: 2010–2024" ∈ build_clues lewisDunk idPerm idPerm idPerm ∧
    (∀ cl ∈ build_clues_tagged lewisDunk idPerm idPerm idPerm,
      FactTag.era ∉ cl.2) ∧
    "This player is still at the club." ∈ build_clues lewisDunk idPerm idPerm idPerm := by
  decide


/-! ### Substring non-leakage machinery (C7) -/

/-- A nonempty pattern is not an infix of the empty list. -/
theorem not_infix_nil (pat : List Char) (h : pat ≠ []) :
    ¬ pat <:+: ([] : List Char) := by
  intro hbad
  obtain ⟨s, t, hst⟩ := hbad
  rcases List.append_eq_nil.mp hst with ⟨h1, h2⟩
  rcases List.append_eq_nil.mp h1 with ⟨h3, h4⟩
  exact h h4

/-- A prefix of a concatenation is a prefix of the left part or extends it. -/
theorem prefixSplit (x a b : List Char) (h : x <+: a ++ b) :
    x <+: a ∨ (a <+: x ∧ x.drop a.length <+: b) := by
  obtain ⟨t, ht⟩ := h
  rcases List.append_eq_append_iff.mp ht with ⟨a2, ha, ht2⟩ | ⟨c2, hx, hb⟩
  · exact Or.inl ⟨a2, ha.symm⟩
  · refine Or.inr ⟨⟨c2, hx.symm⟩, ?_⟩
    rw [hx, List.drop_left]
    exact ⟨t, hb.symm⟩

/-- A prefix occurrence is an infix occurrence. -/
theorem infix_of_pre (x y : List Char) (h : x <+: y) : x <:+: y := by
  obtain ⟨t, ht⟩ := h
  exact ⟨[], t, by simpa using ht⟩

/-- A suffix occurrence is an infix occurrence. -/
theorem infix_of_suf (x y : List Char) (h : x <:+ y) : x <:+: y := by
  obtain ⟨s, hs⟩ := h
  exact ⟨s, [], by simpa using hs⟩

/-- An infix of a concatenation is an infix of one part or straddles the
border, a nonempty proper prefix of it closing the left part and the rest
opening the right part. -/
theorem infixSplit (p a b : List Char) (h : p <:+: a ++ b) :
    p <:+: a ∨ p <:+: b ∨
      ∃ k, 0 < k ∧ k < p.length ∧ p.take k <:+ a ∧ p.drop k <+: b := by
  obtain ⟨s, t, hst⟩ := h
  rw [List.append_assoc] at hst
  rcases List.append_eq_append_iff.mp hst with ⟨a2, ha, ht2⟩ | ⟨c2, hs2, hb⟩
  · rcases List.append_eq_append_iff.mp ht2 with ⟨a3, ha3, ht3⟩ | ⟨c3, hp, hb3⟩
    · left
      exact ⟨s, a3, by rw [ha, ha3, List.append_assoc]⟩
    · by_cases h0 : a2 = []
      · subst h0
        right
        left
        apply infix_of_pre
        rw [hp]
        simp only [List.nil_append]
        exact ⟨t, hb3.symm⟩
      by_cases h1 : c3 = []
      · subst h1
        left
        apply infix_of_suf
        rw [hp, List.append_nil]
        exact ⟨s, ha.symm⟩
      · right
        right
        refine ⟨a2.length, List.length_pos.mpr h0, ?_, ?_, ?_⟩
        · rw [hp, List.length_append]
          have := List.length_pos.mpr h1
          omega
        · rw [hp, List.take_left]
          exact ⟨s, ha.symm⟩
        · rw [hp, List.drop_left]
          exact ⟨t, hb3.symm⟩
  · right
    left
    exact ⟨c2, t, by rw [hb, List.append_assoc]⟩

/-- Core non-leakage lemma: a pattern that occurs in no literal and no data
piece, and that cannot straddle any border by the listed side conditions,
does not occur in the rendered clue. -/
theorem not_infix_render (pat : List Char) :
    ∀ (ps : List (List Char × List Char)) (final : List Char),
      (¬ pat <:+: final) →
      (∀ pr ∈ ps, ¬ pat <:+: pr.1) →
      (∀ pr ∈ ps, ¬ pat <:+: pr.2) →
      (∀ pr ∈ ps, ∀ k, k < pat.length → 0 < k → ¬ pat.take k <:+ pr.1) →
      (∀ nl ∈ nextLits ps final, ∀ k, k < pat.length → 0 < k →
        ¬ pat.drop k <+: nl ∧ ¬ nl <+: pat.drop k) →
      ¬ pat <:+: renderPieces ps final := by
  intro ps
  induction ps with
  | nil =>
    intro final hfin _ _ _ _ h
    exact hfin h
  | cons pr rest ih =>
    intro final hfin hlits hflds hD1 hD2 hinf
    obtain ⟨lit, f⟩ := pr
    have hmem_lit : ((lit, f) : List Char × List Char) ∈ (lit, f) :: rest := by simp
    simp only [renderPieces] at hinf
    rcases infixSplit pat lit (f ++ renderPieces rest final) hinf with
      h | h | ⟨k, hk0, hkl, hsuf, hpre⟩
    · exact hlits (lit, f) hmem_lit h
    · rcases infixSplit pat f (renderPieces rest final) h with
        h2 | h2 | ⟨k, hk0, hkl, hsuf2, hpre2⟩
      · exact hflds (lit, f) hmem_lit h2
      · refine ih final hfin ?_ ?_ ?_ ?_ h2
        · intro pr2 hpr
          exact hlits pr2 (List.mem_cons_of_mem _ hpr)
        · intro pr2 hpr
          exact hflds pr2 (List.mem_cons_of_mem _ hpr)
        · intro pr2 hpr
          exact hD1 pr2 (List.mem_cons_of_mem _ hpr)
        · intro nl hnl
          apply hD2
          simp only [nextLits] at hnl ⊢
          simp only [List.map_cons, List.drop_one, List.tail_cons]
          rcases List.mem_append.mp hnl with h3 | h3
          · exact List.mem_append_left _ (List.drop_subset _ _ h3)
          · exact List.mem_append_right _ h3
      · have hxne : pat.drop k ≠ [] := by
          intro h0
          rw [List.drop_eq_nil_iff] at h0
          omega
        cases rest with
        | nil =>
          simp only [renderPieces] at hpre2
          by_cases hfe : final = []
          · subst hfe
            exact hxne (List.prefix_nil.mp hpre2)
          · exact (hD2 final (by simp [nextLits, hfe]) k hkl hk0).1 hpre2
        | cons pr2 rest2 =>
          obtain ⟨lit2, f2⟩ := pr2
          simp only [renderPieces] at hpre2
          have hmem2 : lit2 ∈ nextLits ((lit, f) :: (lit2, f2) :: rest2) final := by
            simp [nextLits]
          have hD := hD2 lit2 hmem2 k hkl hk0
          rcases prefixSplit _ lit2 _ hpre2 with h3 | ⟨h3, _⟩
          · exact hD.1 h3
          · exact hD.2 h3
    · exact hD1 (lit, f) hmem_lit k hkl hk0 hsuf

/-- Packaged form: field hypotheses plus decidable literal-side conditions
give non-leakage for a rendered clue. -/
theorem clue_text_safe (pat : List Char)
    (ps : List (List Char × List Char)) (final : List Char)
    (hflds : ∀ pr ∈ ps, ¬ pat <:+: pr.2)
    (hconds : litConds pat (ps.map Prod.fst) final) :
    ¬ pat <:+: renderPieces ps final := by
  obtain ⟨hfin, hlit, hnext⟩ := hconds
  refine not_infix_render pat ps final hfin ?_ hflds ?_ ?_
  · intro pr hpr
    exact (hlit pr.1 (List.mem_map_of_mem _ hpr)).1
  · intro pr hpr k hk hk0
    exact (hlit pr.1 (List.mem_map_of_mem _ hpr)).2 k hk hk0
  · intro nl hnl k hk hk0
    refine hnext nl ?_ k hk hk0
    simpa [nextLits, List.drop_one] using hnl


/-- The left-for candidate is suppressed for a retired player. -/
theorem left_for_clue_retired (p : Player)
    (hret : "Retired".data <:+: p.left_for.data) : left_for_clue p = "" := by
  simp [left_for_clue, hret]

/-- The era candidate text is always empty: with seasons text it is
suppressed outright, and without seasons text the era is extracted from
that same empty text. -/
theorem era_candidate_empty (p : Player) :
    (if p.seasons = "" then era_clue p else "") = "" := by
  by_cases hs : p.seasons = ""
  · simp [hs, era_clue, extract_era]
  · simp [hs]

/-- A clue kept by build_clues comes from one of the three tiers. -/
theorem mem_tiers_of_mem_build (p : Player) (σ1 σ2 σ3 : List Clue → List Clue)
    (hσ1 : List.Perm (σ1 (filterClues (tier_1 p))) (filterClues (tier_1 p)))
    (hσ2 : List.Perm (σ2 (filterClues (tier_2 p))) (filterClues (tier_2 p)))
    (hσ3 : List.Perm (σ3 (filterClues (tier_3 p))) (filterClues (tier_3 p)))
    (cl : Clue) (hcl : cl ∈ build_clues_tagged p σ1 σ2 σ3) :
    cl ∈ tier_1 p ∨ cl ∈ tier_2 p ∨ cl ∈ tier_3 p := by
  have h2 := mem_of_mem_dedup_pass _ [] cl hcl
  rcases List.mem_append.mp h2 with h | h
  · rcases List.mem_append.mp h with h1 | h1
    · exact Or.inl (List.mem_of_mem_filter (hσ1.mem_iff.mp h1))
    · exact Or.inr (Or.inl (List.mem_of_mem_filter (hσ2.mem_iff.mp h1)))
  · exact Or.inr (Or.inr (List.mem_of_mem_filter (hσ3.mem_iff.mp h)))

set_option maxRecDepth 8192 in
/-- C7 counterexample: a player record whose leftFor contains "Retired" but
whose position text also contains "Retired" produces a clue containing
"Retired" (the position clue interpolates the position text verbatim), so
the claim fails as universally stated over player records. -/
theorem C7_retired_counterexample :
    ("Retired".data <:+: retiredPositionPlayer.left_for.data) ∧
    ∃ c ∈ build_clues retiredPositionPlayer idPerm idPerm idPerm,
      "Retired".data <:+: c.data := by
  decide

/-- C7 amended: for a player whose leftFor contains "Retired", provided the
other interpolated texts (birth fields, seasons, joinedFrom, position, and
the rendered numeric fields) do not themselves contain the substrings
"Retired" or "left Brighton to join", no clue returned by build_clues
contains either substring, for every tier shuffle (hence every seed). -/
theorem C7_retired_amended (p : Player) (σ1 σ2 σ3 : List Clue → List Clue)
    (hσ1 : List.Perm (σ1 (filterClues (tier_1 p))) (filterClues (tier_1 p)))
    (hσ2 : List.Perm (σ2 (filterClues (tier_2 p))) (filterClues (tier_2 p)))
    (hσ3 : List.Perm (σ3 (filterClues (tier_3 p))) (filterClues (tier_3 p)))
    (hret : "Retired".data <:+: p.left_for.data)
    (hfields : ∀ f ∈ clue_field_texts p, ∀ q ∈ bad_substrings,
      ¬ q.data <:+: f.data) :
    ∀ c ∈ build_clues p σ1 σ2 σ3, ∀ q ∈ bad_substrings,
      ¬ q.data <:+: c.data := by
  intro c hc q hq
  have hq2 : q = "Retired" ∨ q = "left Brighton to join" := by
    simpa [bad_substrings] using hq
  have hqne : q.data ≠ [] := by
    rcases hq2 with rfl | rfl <;> decide
  have hfq : ∀ f ∈ clue_field_texts p, ¬ q.data <:+: f.data :=
    fun f hf => hfields f hf q hq
  obtain ⟨cl, hcl, hcfst⟩ := List.mem_map.mp hc
  subst hcfst
  rcases mem_tiers_of_mem_build p σ1 σ2 σ3 hσ1 hσ2 hσ3 cl hcl with h | h | h
  · simp only [tier_1, List.mem_cons, List.not_mem_nil, or_false] at h
    rcases h with rfl | rfl | rfl | rfl
    · show ¬ q.data <:+: (if p.seasons = "" then era_clue p else "").data
      rw [era_candidate_empty p]
      exact not_infix_nil q.data hqne
    · show ¬ q.data <:+: ("This player was born in " ++ p.place_of_birth ++ ", " ++
        p.country_of_birth ++ " and has " ++ toString p.spells ++
        " spell(s) at Brighton.").data
      have hd : ("This player was born in " ++ p.place_of_birth ++ ", " ++
          p.country_of_birth ++ " and has " ++ toString p.spells ++
          " spell(s) at Brighton.").data =
          renderPieces
            [("This player was born in ".data, p.place_of_birth.data),
              (", ".data, p.country_of_birth.data),
              (" and has ".data, (toString p.spells).data)]
            " spell(s) at Brighton.".data := by
        simp [renderPieces, String.data_append, List.append_assoc]
      rw [hd]
      refine clue_text_safe q.data _ _ ?_ ?_
      · intro pr hpr
        simp only [List.mem_cons, List.not_mem_nil, or_false] at hpr
        rcases hpr with rfl | rfl | rfl
        · exact hfq p.place_of_birth (by simp [clue_field_texts])
        · exact hfq p.country_of_birth (by simp [clue_field_texts])
        · exact hfq (toString p.spells) (by simp [clue_field_texts])
      · show litConds q.data
          ["This player was born in ".data, ", ".data, " and has ".data]
          " spell(s) at Brighton.".data
        rcases hq2 with rfl | rfl <;> decide
    · show ¬ q.data <:+:
        (if p.seasons = "" then "" else "Seasons at Brighton: " ++ p.seasons).data
      by_cases hs : p.seasons = ""
      · rw [if_pos hs]
        exact not_infix_nil q.data hqne
      · rw [if_neg hs]
        have hd : ("Seasons at Brighton: " ++ p.seasons).data =
            renderPieces [("Seasons at Brighton: ".data, p.seasons.data)] [] := by
          simp [renderPieces, String.data_append]
        rw [hd]
        refine clue_text_safe q.data _ _ ?_ ?_
        · intro pr hpr
          simp only [List.mem_cons, List.not_mem_nil, or_false] at hpr
          rcases hpr with rfl
          exact hfq p.seasons (by simp [clue_field_texts])
        · show litConds q.data ["Seasons at Brighton: ".data] ([] : List Char)
          rcases hq2 with rfl | rfl <;> decide
    · show ¬ q.data <:+: (if p.seasons2 = "" then "" else
        "Seasons at Brighton during second spell: " ++ p.seasons2).data
      by_cases hs : p.seasons2 = ""
      · rw [if_pos hs]
        exact not_infix_nil q.data hqne
      · rw [if_neg hs]
        have hd : ("Seasons at Brighton during second spell: " ++ p.seasons2).data =
            renderPieces
              [("Seasons at Brighton during second spell: ".data, p.seasons2.data)]
              [] := by
          simp [renderPieces, String.data_append]
        rw [hd]
        refine clue_text_safe q.data _ _ ?_ ?_
        · intro pr hpr
          simp only [List.mem_cons, List.not_mem_nil, or_false] at hpr
          rcases hpr with rfl
          exact hfq p.seasons2 (by simp [clue_field_texts])
        · show litConds q.data
            ["Seasons at Brighton during second spell: ".data] ([] : List Char)
          rcases hq2 with rfl | rfl <;> decide
  · simp only [tier_2, List.mem_cons, List.not_mem_nil, or_false] at h
    rcases h with rfl | rfl | rfl | rfl
    · show ¬ q.data <:+: ("This player made " ++ toString p.league_appearances ++
        " league appearances for Brighton.").data
      have hd : ("This player made " ++ toString p.league_appearances ++
          " league appearances for Brighton.").data =
          renderPieces
            [("This player made ".data, (toString p.league_appearances).data)]
            " league appearances for Brighton.".data := by
        simp [renderPieces, String.data_append, List.append_assoc]
      rw [hd]
      refine clue_text_safe q.data _ _ ?_ ?_
      · intro pr hpr
        simp only [List.mem_cons, List.not_mem_nil, or_false] at hpr
        rcases hpr with rfl
        exact hfq (toString p.league_appearances) (by simp [clue_field_texts])
      · show litConds q.data ["This player made ".data]
          " league appearances for Brighton.".data
        rcases hq2 with rfl | rfl <;> decide
    · show ¬ q.data <:+: ("This player scored " ++ toString p.league_goals ++
        " league goals for Brighton.").data
      have hd : ("This player scored " ++ toString p.league_goals ++
          " league goals for Brighton.").data =
          renderPieces [("This player scored ".data, (toString p.league_goals).data)]
            " league goals for Brighton.".data := by
        simp [renderPieces, String.data_append, List.append_assoc]
      rw [hd]
      refine clue_text_safe q.data _ _ ?_ ?_
      · intro pr hpr
        simp only [List.mem_cons, List.not_mem_nil, or_false] at hpr
        rcases hpr with rfl
        exact hfq (toString p.league_goals) (by simp [clue_field_texts])
      · show litConds q.data ["This player scored ".data]
          " league goals for Brighton.".data
        rcases hq2 with rfl | rfl <;> decide
    · show ¬ q.data <:+: ("This player joined Brighton from " ++ p.joined_from).data
      have hd : ("This player joined Brighton from " ++ p.joined_from).data =
          renderPieces
            [("This player joined Brighton from ".data, p.joined_from.data)]
            [] := by
        simp [renderPieces, String.data_append]
      rw [hd]
      refine clue_text_safe q.data _ _ ?_ ?_
      · intro pr hpr
        simp only [List.mem_cons, List.not_mem_nil, or_false] at hpr
        rcases hpr with rfl
        exact hfq p.joined_from (by simp [clue_field_texts])
      · show litConds q.data ["This player joined Brighton from ".data]
          ([] : List Char)
        rcases hq2 with rfl | rfl <;> decide
    · show ¬ q.data <:+: (left_for_clue p).data
      rw [left_for_clue_retired p hret]
      exact not_infix_nil q.data hqne
  · simp only [tier_3, List.mem_cons, List.not_mem_nil, or_false] at h
    rcases h with rfl | rfl
    · show ¬ q.data <:+: ("This player is a " ++ p.position ++ ".").data
      have hd : ("This player is a " ++ p.position ++ ".").data =
          renderPieces [("This player is a ".data, p.position.data)] ".".data := by
        simp [renderPieces, String.data_append, List.append_assoc]
      rw [hd]
      refine clue_text_safe q.data _ _ ?_ ?_
      · intro pr hpr
        simp only [List.mem_cons, List.not_mem_nil, or_false] at hpr
        rcases hpr with rfl
        exact hfq p.position (by simp [clue_field_texts])
      · show litConds q.data ["This player is a ".data] ".".data
        rcases hq2 with rfl | rfl <;> decide
    · show ¬ q.data <:+: ("This player was born on " ++ p.date_of_birth ++ ", in " ++
        p.place_of_birth ++ ", " ++ p.country_of_birth ++ ".").data
      have hd : ("This player was born on " ++ p.date_of_birth ++ ", in " ++
          p.place_of_birth ++ ", " ++ p.country_of_birth ++ ".").data =
          renderPieces
            [("This player was born on ".data, p.date_of_birth.data),
              (", in ".data, p.place_of_birth.data),
              (", ".data, p.country_of_birth.data)]
            ".".data := by
        simp [renderPieces, String.data_append, List.append_assoc]
      rw [hd]
      refine clue_text_safe q.data _ _ ?_ ?_
      · intro pr hpr
        simp only [List.mem_cons, List.not_mem_nil, or_false] at hpr
        rcases hpr with rfl | rfl | rfl
        · exact hfq p.date_of_birth (by simp [clue_field_texts])
        · exact hfq p.place_of_birth (by simp [clue_field_texts])
        · exact hfq p.country_of_birth (by simp [clue_field_texts])
      · show litConds q.data
          ["This player was born on ".data, ", in ".data, ", ".data]
          ".".data
        rcases hq2 with rfl | rfl <;> decide

set_option maxRecDepth 8192 in
/-- Witness for the amended C7 at a concrete retired player. -/
theorem C7_retired_amended_witness :
    ("Retired".data <:+: eligiblePlayer.left_for.data ∧
      (∀ f ∈ clue_field_texts eligiblePlayer, ∀ q ∈ bad_substrings,
        ¬ q.data <:+: f.data)) ∧
    (∀ c ∈ build_clues eligiblePlayer idPerm idPerm idPerm,
      ∀ q ∈ bad_substrings, ¬ q.data <:+: c.data) :=
  ⟨⟨by decide, by decide⟩,
    C7_retired_amended eligiblePlayer idPerm idPerm idPerm
      (List.Perm.refl _) (List.Perm.refl _) (List.Perm.refl _)
      (by decide) (by decide)⟩

end BrightonDaily
